import Mathlib

/-!
Shallow embedding of the multi-camera exposure-fusion capture service
(`main.py`, `capture_server.py`) together with proofs about the claims of
its specification.

Modelling conventions:

* An image is modelled pixelwise: `Img α` carries its spatial dimensions and
  a total pixel function.  Machine floats (numpy `float64`) are modelled as
  real numbers, i.e. the arithmetic is exact; byte pixels are naturals.
* OpenCV's `pyrDown` / `pyrUp` (called by `_gaussian_pyramid`,
  `_laplacian_pyramid` and `_reconstruct`) are modelled by the separable
  5-tap binomial kernel `[1,4,6,4,1]/16` with reflect-101 border handling,
  exactly as the library documents them; `pyrUp` takes the explicit
  `dstsize` used by the source.
* `cv2.cvtColor(..., COLOR_BGR2GRAY)` on bytes is the rounded BT.601 luma;
  channel 0 is blue, channel 1 green, channel 2 red (BGR order).
* Python exceptions are modelled with `Except`: a raised numpy broadcasting
  error (mixed shapes reaching `np.sum(weights, axis=0)`) is an `.error`,
  a returned `None` is `.ok none`.
* The settling loop of `single_camera_worker` works on frame means, which
  for byte frames are exact rationals, so its state is modelled over `ℚ`.
* The shared-state store of `capture_server.py` is a JSON-ish tree `JVal`;
  Python `dict`s are ordered association lists with string keys, `list` and
  `tuple` are both `JVal.arr`, and any other payload (e.g. a numpy image
  buffer) is `JVal.other tag` where `tag` stands for `str(type(v))`.
  `set_data` resolves the parent via `sep.join(parts[:-1])` followed by a
  re-split; since the pieces of a split are nonempty and separator-free
  this recovers exactly `parts[:-1]`, which is how the parent resolution is
  written below.
-/

namespace PSFU

/-- An image: spatial dimensions plus a total pixel function.  `α` is the
per-pixel value type (`ℝ` for one channel, `Fin 3 → ℝ` for three). -/
structure Img (α : Type) where
  h : Nat
  w : Nat
  pix : Nat → Nat → α

instance {α : Type} [Inhabited α] : Inhabited (Img α) := ⟨⟨0, 0, fun _ _ => default⟩⟩

/-- Pixel value of a 3-channel float image. -/
abbrev Pix3 := Fin 3 → ℝ

/-- A 3-channel float image (BGR order, like the numpy arrays of the source). -/
abbrev CImg := Img Pix3

/-- An 8-bit 3-channel image; well-formedness (`pix ≤ 255`) is stated where
needed rather than baked into the type. -/
structure ByteImg where
  h : Nat
  w : Nat
  pix : Nat → Nat → Fin 3 → Nat

instance : Inhabited ByteImg := ⟨⟨0, 0, fun _ _ _ => 0⟩⟩

/-- OpenCV `BORDER_REFLECT_101` coordinate folding (`-1 ↦ 1`, `n ↦ n-2`). -/
def refl101 (n : Nat) (t : Int) : Nat :=
  if t < 0 then (-t).toNat
  else if t < (n : Int) then t.toNat
  else (2 * ((n : Int) - 1) - t).toNat

/-- The 5-tap binomial kernel `[1,4,6,4,1]/16` used by `pyrDown`/`pyrUp`. -/
noncomputable def k5 : Fin 5 → ℝ := fun i =>
  if i.val = 0 ∨ i.val = 4 then 1 / 16
  else if i.val = 1 ∨ i.val = 3 then 1 / 4
  else 3 / 8

/-- Pointwise image addition (numpy `+`); dimensions from the left operand. -/
def addImg {α : Type} [Add α] (a b : Img α) : Img α :=
  ⟨a.h, a.w, fun y x => a.pix y x + b.pix y x⟩

/-- Pointwise image subtraction (numpy `-`); dimensions from the left operand. -/
def subImg {α : Type} [Sub α] (a b : Img α) : Img α :=
  ⟨a.h, a.w, fun y x => a.pix y x - b.pix y x⟩

/-- `np.zeros_like(img, dtype=np.float64)`: only the shape of the argument
matters. -/
def zerosLike {α : Type} [Zero α] (a : Img α) : Img α :=
  ⟨a.h, a.w, fun _ _ => 0⟩

/-- `cv2.pyrDown`: Gaussian blur with the binomial kernel (reflect-101
borders) followed by decimation; output size `((h+1)/2, (w+1)/2)`. -/
noncomputable def pyrDown {α : Type} [AddCommMonoid α] [Module ℝ α] (im : Img α) : Img α :=
  ⟨(im.h + 1) / 2, (im.w + 1) / 2, fun y x =>
    ∑ i : Fin 5, ∑ j : Fin 5,
      (k5 i * k5 j) •
        im.pix (refl101 im.h (2 * (y : Int) + (i.val : Int) - 2))
               (refl101 im.w (2 * (x : Int) + (j.val : Int) - 2))⟩

/-- `cv2.pyrUp(img, dstsize=(dw, dh))`: zero insertion followed by blurring
with the kernel scaled by 4; the output size is the explicit `dstsize`. -/
noncomputable def pyrUp {α : Type} [AddCommMonoid α] [Module ℝ α]
    (im : Img α) (dh dw : Nat) : Img α :=
  ⟨dh, dw, fun y x =>
    ∑ i : Fin 5, ∑ j : Fin 5,
      (if ((y : Int) + (i.val : Int) - 2) % 2 = 0 ∧ ((x : Int) + (j.val : Int) - 2) % 2 = 0 then
        (4 * k5 i * k5 j) •
          im.pix (refl101 im.h (((y : Int) + (i.val : Int) - 2) / 2))
                 (refl101 im.w (((x : Int) + (j.val : Int) - 2) / 2))
      else 0)⟩

/-- `_gaussian_pyramid` unrolled on the number of `pyrDown` applications:
`pyr = [img]; for _ in range(levels-1): pyr.append(pyrDown(pyr[-1]))`. -/
noncomputable def gaussian_pyramid_n {α : Type} [AddCommMonoid α] [Module ℝ α] :
    Img α → Nat → List (Img α)
  | img, 0 => [img]
  | img, n + 1 => img :: gaussian_pyramid_n (pyrDown img) n

/-- `ExposureFusionEngine._gaussian_pyramid(img, levels)`; `levels` is a
Python `int`, and `range(levels - 1)` is empty for `levels ≤ 1`. -/
noncomputable def gaussian_pyramid {α : Type} [AddCommMonoid α] [Module ℝ α]
    (img : Img α) (levels : Int) : List (Img α) :=
  gaussian_pyramid_n img (levels - 1).toNat

/-- The body of `_laplacian_pyramid` applied to an already-built Gaussian
pyramid `g`: `lap[i] = g[i] - pyrUp(g[i+1], dstsize=size(g[i]))` for the
`len g - 1` consecutive pairs, then the coarsest level is appended. -/
noncomputable def lap_of {α : Type} [AddCommGroup α] [Module ℝ α] [Inhabited α]
    (g : List (Img α)) : List (Img α) :=
  (g.zip g.tail).map (fun p => subImg p.1 (pyrUp p.2 p.1.h p.1.w)) ++ [g.getLastD default]

/-- `ExposureFusionEngine._laplacian_pyramid(img, levels)`. -/
noncomputable def laplacian_pyramid {α : Type} [AddCommGroup α] [Module ℝ α] [Inhabited α]
    (img : Img α) (levels : Int) : List (Img α) :=
  lap_of (gaussian_pyramid img levels)

/-- `ExposureFusionEngine._reconstruct(pyramid)`:
`img = pyramid[-1]; for i in len-2..0: img = pyrUp(img, size(pyramid[i])) + pyramid[i]`. -/
noncomputable def reconstruct {α : Type} [AddCommGroup α] [Module ℝ α] [Inhabited α]
    (pyramid : List (Img α)) : Img α :=
  pyramid.dropLast.foldr (fun p acc => addImg (pyrUp acc p.h p.w) p) (pyramid.getLastD default)

/-- `img / 255.0` on a byte image, per channel. -/
noncomputable def norm_pix (im : ByteImg) (y x : Nat) (c : Fin 3) : ℝ :=
  (im.pix y x c : ℝ) / 255

/-- `cv2.cvtColor(img, COLOR_BGR2GRAY) / 255.0`: rounded BT.601 luma of the
byte image (channel 2 is red, 1 green, 0 blue), then normalised. -/
noncomputable def gray_of (im : ByteImg) : Img ℝ :=
  ⟨im.h, im.w, fun y x =>
    ((round ((299 / 1000 : ℝ) * (im.pix y x 2 : ℝ) + (587 / 1000) * (im.pix y x 1 : ℝ) +
        (114 / 1000) * (im.pix y x 0 : ℝ)) : ℤ) : ℝ) / 255⟩

/-- `_compute_contrast`: `|cv2.Laplacian(gray, CV_64F)|`, the 4-neighbour
Laplacian `[[0,1,0],[1,-4,1],[0,1,0]]` with reflect-101 borders. -/
noncomputable def compute_contrast (g : Img ℝ) : Img ℝ :=
  ⟨g.h, g.w, fun y x =>
    |g.pix (refl101 g.h ((y : Int) - 1)) x + g.pix (refl101 g.h ((y : Int) + 1)) x +
      g.pix y (refl101 g.w ((x : Int) - 1)) + g.pix y (refl101 g.w ((x : Int) + 1)) -
      4 * g.pix y x|⟩

/-- `_compute_saturation`: `np.std(img_norm, axis=2)`, the population
standard deviation across the three channels. -/
noncomputable def compute_saturation (im : ByteImg) : Img ℝ :=
  ⟨im.h, im.w, fun y x =>
    Real.sqrt (((norm_pix im y x 0 - (norm_pix im y x 0 + norm_pix im y x 1 + norm_pix im y x 2) / 3) ^ 2 +
      (norm_pix im y x 1 - (norm_pix im y x 0 + norm_pix im y x 1 + norm_pix im y x 2) / 3) ^ 2 +
      (norm_pix im y x 2 - (norm_pix im y x 0 + norm_pix im y x 1 + norm_pix im y x 2) / 3) ^ 2) / 3)⟩

/-- `_compute_exposedness`: `prod_c exp(-0.5 (img_norm - 0.5)^2 / sigma^2)`
with `sigma = 0.2`. -/
noncomputable def compute_exposedness (im : ByteImg) : Img ℝ :=
  ⟨im.h, im.w, fun y x =>
    ∏ c : Fin 3, Real.exp (-(1 / 2) * (norm_pix im y x c - 1 / 2) ^ 2 / ((2 / 10) ^ 2))⟩

/-- The unnormalised weight of one bracket image:
`contrast**wc * saturation**ws * exposedness**we + 1e-12`
(`np.power` with real exponents is `Real.rpow`). -/
noncomputable def weight_map (cw sw ew : ℝ) (im : ByteImg) : Img ℝ :=
  ⟨im.h, im.w, fun y x =>
    Real.rpow ((compute_contrast (gray_of im)).pix y x) cw *
      Real.rpow ((compute_saturation im).pix y x) sw *
      Real.rpow ((compute_exposedness im).pix y x) ew + 1 / 10 ^ 12⟩

/-- `np.sum(weights, axis=0)` over a list of single-channel maps. -/
noncomputable def sumImgs (l : List (Img ℝ)) : Img ℝ :=
  ⟨(l.headD default).h, (l.headD default).w, fun y x => (l.map (fun im => im.pix y x)).sum⟩

/-- Pointwise division `w / sum_weights`. -/
noncomputable def divImg (a b : Img ℝ) : Img ℝ :=
  ⟨a.h, a.w, fun y x => a.pix y x / b.pix y x⟩

/-- Failure of the fusion engine: a numpy broadcasting error raised by
`np.sum(weights, axis=0)` when the bracket images do not all share one
shape. -/
inductive FuseErr where
  | shapeMismatch : FuseErr
deriving DecidableEq

/-- `ExposureFusionEngine._generate_weight_maps(images)`.  `np.sum` over the
per-image weight maps raises unless all shapes agree (modelled as
`.error`); otherwise each map is divided by the pixelwise total. -/
noncomputable def generate_weight_maps (cw sw ew : ℝ) (images : List ByteImg) :
    Except FuseErr (List (Img ℝ)) :=
  if ∀ im ∈ images, im.h = (images.headD default).h ∧ im.w = (images.headD default).w then
    .ok ((images.map (weight_map cw sw ew)).map
      (fun m => divImg m (sumImgs (images.map (weight_map cw sw ew)))))
  else .error .shapeMismatch

/-- `images[i].astype(np.float64) / 255.0`. -/
noncomputable def to_float (im : ByteImg) : CImg :=
  ⟨im.h, im.w, fun y x c => (im.pix y x c : ℝ) / 255⟩

/-- `cv2.cvtColor(weight.astype(np.float32), COLOR_GRAY2BGR) * img`:
the single-channel weight is broadcast over the three channels and
multiplied elementwise (the `float32` cast is the identity in exact
arithmetic). -/
noncomputable def mul_weight (wm : Img ℝ) (im : CImg) : CImg :=
  ⟨wm.h, wm.w, fun y x c => wm.pix y x * im.pix y x c⟩

/-- `(np.clip(img, 0, 1) * 255).astype(np.uint8)`: clamp to `[0,1]`, scale,
truncate towards zero (= floor, the value being nonnegative). -/
noncomputable def to_byte (im : CImg) : ByteImg :=
  ⟨im.h, im.w, fun y x c => (Int.floor (min 1 (max 0 (im.pix y x c)) * 255)).toNat⟩

/-- `num_levels = int(np.log2(min_dim)) - 2` — `int` truncation of
`log2` on a positive argument is `Nat.log2`, the floor of `log2`. -/
def fuse_num_levels (m : Nat) : Int :=
  (Nat.log2 m : Int) - 2

/-- The inner loop `for level in range(num_levels): pyr_fusion[level] += terms level`
of `fuse`, accumulating into the list of fusion levels. -/
def accumulate_levels {α : Type} [Add α] [Inhabited α]
    (terms : Nat → Img α) (n : Nat) (acc : List (Img α)) : List (Img α) :=
  (List.range n).foldl
    (fun a level => a.set level (addImg (a.getD level default) (terms level))) acc

/-- `ExposureFusionEngine.fuse(images)`.  `.ok none` is Python `None`
(empty bracket); `.error` is a raised numpy shape error; otherwise the
blended pyramid is reconstructed, clipped and cast back to bytes.
`pyr_fusion` is initialised with `zeros_like` over the Gaussian pyramid of
`images[0]` — only the level shapes matter, and they are independent of the
pixel contents, so the pyramid of the float conversion is used. -/
noncomputable def fuse (cw sw ew : ℝ) (images : List ByteImg) :
    Except FuseErr (Option ByteImg) :=
  match images with
  | [] => .ok none
  | i0 :: _ =>
    match generate_weight_maps cw sw ew images with
    | .error e => .error e
    | .ok weights =>
      .ok (some (to_byte (reconstruct
        ((List.range images.length).foldl
          (fun acc i =>
            accumulate_levels
              (fun level =>
                mul_weight
                  ((gaussian_pyramid (weights.getD i default)
                      (fuse_num_levels (min i0.h i0.w))).getD level default)
                  ((laplacian_pyramid (to_float (images.getD i default))
                      (fuse_num_levels (min i0.h i0.w))).getD level default))
              (fuse_num_levels (min i0.h i0.w)).toNat acc)
          ((gaussian_pyramid (to_float i0) (fuse_num_levels (min i0.h i0.w))).map zerosLike)))))

/-- State of the adaptive settling loop of `single_camera_worker`
(`has_changed`, `stable_count`, `prev_b`).  Frame means of byte frames are
exact rationals, so the loop is modelled over `ℚ`. -/
structure SettleState where
  hasChanged : Bool
  stableCount : Nat
  prevB : ℚ
deriving DecidableEq

/-- `safe_old = last_mean if last_mean > 0.001 else 0.001`. -/
def safe_old_of (lastMean : ℚ) : ℚ :=
  if lastMean > 1 / 1000 then lastMean else 1 / 1000

/-- One iteration of the settling loop body after a successful grab with
frame mean `currB`: the change test runs when `has_changed` is still false,
and the stability test runs whenever `has_changed` holds *afterwards* —
the two tests are sequential `if`s in the source, not an `if`/`else`.
The returned boolean is the `break` flag; on break `prev_b` is not
updated (the `prev_b = curr_b` line is skipped). -/
def settle_step (lastMean currB : ℚ) (s : SettleState) : SettleState × Bool :=
  let hasChanged' :=
    if ¬ s.hasChanged ∧ |currB - safe_old_of lastMean| / safe_old_of lastMean > 15 / 100 then
      true
    else s.hasChanged
  if hasChanged' then
    let stableCount' := if |currB - s.prevB| < 1 then s.stableCount + 1 else 0
    if stableCount' ≥ 3 then
      (⟨hasChanged', stableCount', s.prevB⟩, true)
    else
      (⟨hasChanged', stableCount', currB⟩, false)
  else
    (⟨hasChanged', s.stableCount, currB⟩, false)

/-- The settling loop run over a finite sequence of frame means, from its
initialisation `has_changed = false; stable_count = 0; prev_b = 0`; once
the break flag is set the remaining frames are not consumed (the
wall-clock ceiling is modelled by the list being finite). -/
def settle_run (lastMean : ℚ) (means : List ℚ) : SettleState × Bool :=
  means.foldl (fun sb m => if sb.2 then sb else settle_step lastMean m sb.1)
    (⟨false, 0, 0⟩, false)

/-- The values of `cam_config['fusion_state']`. -/
inductive FState where
  | idle : FState
  | requested : FState
  | processing : FState
  | ready : FState
deriving DecidableEq

/-- Position of the worker in its loop: at the top-of-loop check of
`fusion_state`, or inside the bracketed-capture block (between the
assignment of `PROCESSING` and the final assignment of `READY`). -/
inductive WPc where
  | top : WPc
  | busy : WPc
deriving DecidableEq

/-- The mailbox cell together with the worker's program position. -/
structure WSys where
  fs : FState
  pc : WPc
deriving DecidableEq

/-- One worker step of `single_camera_worker`: at the top of the loop the
worker begins a bracket exactly when it reads `REQUESTED` (assigning
`PROCESSING`); finishing the bracket assigns `READY` unconditionally,
overwriting whatever the mailbox holds. -/
def worker_step (s : WSys) : WSys :=
  match s.pc with
  | .top => if s.fs = FState.requested then ⟨.processing, .busy⟩ else ⟨s.fs, .top⟩
  | .busy => ⟨.ready, .top⟩

/-- An external controller (HTTP `set_data` or the inspection logic)
writing a value into `fusion_state`; it can happen at any worker position. -/
def ext_write (v : FState) (s : WSys) : WSys :=
  ⟨v, s.pc⟩

/-- Interleaved events of the worker and the external controller. -/
inductive Ev where
  | worker : Ev
  | ext : FState → Ev

/-- Apply one event. -/
def ev_step : Ev → WSys → WSys
  | .worker => worker_step
  | .ext v => ext_write v

/-- Run a trace of interleaved events. -/
def run_events (tr : List Ev) (s : WSys) : WSys :=
  tr.foldl (fun st e => ev_step e st) s

/-- JSON-ish values held by the shared state (`capture_server.py`).
Python `dict`s are ordered association lists with string keys; `list` and
`tuple` are both `arr`; any other payload is `other tag`, where `tag`
plays the role of `str(type(v))`. -/
inductive JVal where
  | null : JVal
  | bool : Bool → JVal
  | int : Int → JVal
  | num : ℚ → JVal
  | str : String → JVal
  | arr : List JVal → JVal
  | obj : List (String × JVal) → JVal
  | other : String → JVal

mutual

/-- `sanitize_value`: identity on JSON-safe values, recursive on containers,
`str(type(v))` on anything else. -/
def sanitize_value : JVal → JVal
  | .null => .null
  | .bool b => .bool b
  | .int n => .int n
  | .num q => .num q
  | .str t => .str t
  | .arr items => .arr (sanitize_list items)
  | .obj entries => .obj (sanitize_entries entries)
  | .other tag => .str tag

/-- `sanitize_value` mapped over the items of a list. -/
def sanitize_list : List JVal → List JVal
  | [] => []
  | v :: t => sanitize_value v :: sanitize_list t

/-- `sanitize_value` mapped over the values of a dict. -/
def sanitize_entries : List (String × JVal) → List (String × JVal)
  | [] => []
  | (k, v) :: t => (k, sanitize_value v) :: sanitize_entries t

end

mutual

/-- A value is JSON-safe when no `other` payload occurs anywhere in it. -/
def json_safe : JVal → Bool
  | .null => true
  | .bool _ => true
  | .int _ => true
  | .num _ => true
  | .str _ => true
  | .arr items => json_safe_list items
  | .obj entries => json_safe_entries entries
  | .other _ => false

/-- `json_safe` over the items of a list. -/
def json_safe_list : List JVal → Bool
  | [] => true
  | v :: t => json_safe v && json_safe_list t

/-- `json_safe` over the values of a dict. -/
def json_safe_entries : List (String × JVal) → Bool
  | [] => true
  | (_, v) :: t => json_safe v && json_safe_entries t

end

/-- Membership test plus lookup in a Python dict (`part in node` followed by
`node[part]`). -/
def lookupKey : List (String × JVal) → String → Option JVal
  | [], _ => none
  | (k', v) :: t, k => if k' = k then some v else lookupKey t k

/-- Decimal digits accumulated left to right; `none` on the empty list or
any non-digit character. -/
def parseDigitsAux : List Char → Nat → Option Nat
  | [], acc => some acc
  | c :: t, acc =>
    if '0' ≤ c ∧ c ≤ '9' then parseDigitsAux t (acc * 10 + (c.toNat - '0'.toNat))
    else none

/-- A nonempty all-digit run, as a natural number. -/
def parseDigits (ds : List Char) : Option Nat :=
  match ds with
  | [] => none
  | _ => parseDigitsAux ds 0

/-- Python `int(part)`: an optional sign followed by decimal digits.
(`int()` additionally accepts surrounding whitespace and digit-group
underscores, which no claim exercises.) -/
def parse_int (s : String) : Option Int :=
  match s.toList with
  | '-' :: ds => (parseDigits ds).map (fun n => -(n : Int))
  | '+' :: ds => (parseDigits ds).map (fun n => (n : Int))
  | ds => (parseDigits ds).map (fun n => (n : Int))

/-- Python sequence indexing `node[idx]` under `try/except IndexError`:
negative indices count from the end; out of range on either side is
`none`. -/
def pyIndex (l : List JVal) (i : Int) : Option JVal :=
  if 0 ≤ i then l.get? i.toNat
  else if 0 ≤ i + (l.length : Int) then l.get? (i + (l.length : Int)).toNat
  else none

/-- Python list assignment `node[idx] = v` under the same indexing rules;
`none` is a raised `IndexError`. -/
def pySet (l : List JVal) (i : Int) (v : JVal) : Option (List JVal) :=
  if 0 ≤ i then
    if i < (l.length : Int) then some (l.set i.toNat v) else none
  else if 0 ≤ i + (l.length : Int) then
    some (l.set (i + (l.length : Int)).toNat v)
  else none

/-- Failure kinds of path resolution and assignment (the descriptions
passed to `abort` in the source). -/
inductive PathErr where
  | keyNotFound : String → PathErr
  | badIndex : String → PathErr
  | indexOutOfRange : Int → PathErr
  | notContainer : String → PathErr
  | emptyPath : PathErr
  | notAssignable : PathErr
deriving DecidableEq

/-- The traversal loop of `resolve_path` over the already-split segments. -/
def resolveParts : JVal → List String → Except PathErr JVal
  | node, [] => .ok node
  | node, part :: rest =>
    match node with
    | .obj entries =>
      match lookupKey entries part with
      | some child => resolveParts child rest
      | none => .error (.keyNotFound part)
    | .arr elems =>
      match parse_int part with
      | none => .error (.badIndex part)
      | some idx =>
        match pyIndex elems idx with
        | some child => resolveParts child rest
        | none => .error (.indexOutOfRange idx)
    | _ => .error (.notContainer part)

/-- Python `path.split(sep)` on the character list, with explicit fuel
(one unit per consumed character, so `path.length` units always suffice):
each occurrence of the nonempty separator ends the current piece.  The
`sep = \x22\x22` case (a `ValueError` in Python) is not modelled. -/
def strSplitAux (sep : List Char) : Nat → List Char → List Char → List (List Char)
  | 0, s, acc => [acc.reverse ++ s]
  | fuel + 1, s, acc =>
    match s with
    | [] => [acc.reverse]
    | c :: rest =>
      if sep ≠ [] ∧ sep.isPrefixOf s then
        acc.reverse :: strSplitAux sep fuel (s.drop sep.length) []
      else
        strSplitAux sep fuel rest (c :: acc)

/-- `parts = [p for p in path.split(sep) if p != ""]`. -/
def splitParts (path sep : String) : List String :=
  ((strSplitAux sep.toList path.toList.length path.toList []).map
    (fun cs => String.mk cs)).filter (fun p => p ≠ "")

/-- `resolve_path(root, path, sep)`: empty path resolves to the root. -/
def resolve_path (root : JVal) (path : String) (sep : String) : Except PathErr JVal :=
  if path = "" then .ok root else resolveParts root (splitParts path sep)

/-- Replace the value of the first entry with key `k` (Python dict
assignment to an existing key keeps its position). -/
def objReplace : List (String × JVal) → String → JVal → List (String × JVal)
  | [], _, _ => []
  | (k', w) :: t, k, v => if k' = k then (k', v) :: t else (k', w) :: objReplace t k v

/-- Python dict assignment `parent[key] = v`: replace an existing key in
place, append a new key at the end. -/
def objInsert (entries : List (String × JVal)) (k : String) (v : JVal) :
    List (String × JVal) :=
  if (lookupKey entries k).isSome then objReplace entries k v else entries ++ [(k, v)]

/-- The final assignment of `set_data` once the parent is resolved:
`parent[target_key] = val` for a dict, `parent[int(target_key)] = val`
for a list, `abort(400)` otherwise. -/
def assignAt (parent : JVal) (key : String) (v : JVal) : Except PathErr JVal :=
  match parent with
  | .obj entries => .ok (.obj (objInsert entries key v))
  | .arr elems =>
    match parse_int key with
    | none => .error (.badIndex key)
    | some idx =>
      match pySet elems idx v with
      | some elems' => .ok (.arr elems')
      | none => .error (.indexOutOfRange idx)
  | _ => .error .notAssignable

/-- In-place mutation through a resolved parent, functionally: rebuild the
tree along the resolution path of `parts`, applying `f` to the node the
path reaches.  Follows exactly the branching of `resolve_path`. -/
def updateAtParts (node : JVal) (parts : List String) (f : JVal → Except PathErr JVal) :
    Except PathErr JVal :=
  match parts with
  | [] => f node
  | part :: rest =>
    match node with
    | .obj entries =>
      match lookupKey entries part with
      | some child =>
        match updateAtParts child rest f with
        | .ok child' => .ok (.obj (objReplace entries part child'))
        | .error e => .error e
      | none => .error (.keyNotFound part)
    | .arr elems =>
      match parse_int part with
      | none => .error (.badIndex part)
      | some idx =>
        match pyIndex elems idx with
        | some child =>
          match updateAtParts child rest f with
          | .ok child' =>
            match pySet elems idx child' with
            | some elems' => .ok (.arr elems')
            | none => .error (.indexOutOfRange idx)
          | .error e => .error e
        | none => .error (.indexOutOfRange idx)
    | _ => .error (.notContainer part)

/-- `set_data` (HTTP `/api/set`): split the path, resolve the parent
(the source joins `parts[:-1]` with `sep` and re-splits, which recovers
`parts[:-1]` exactly), then assign the last segment. -/
def set_data (root : JVal) (k : String) (sep : String) (v : JVal) :
    Except PathErr JVal :=
  match splitParts k sep with
  | [] => .error .emptyPath
  | part :: rest =>
    updateAtParts root ((part :: rest).dropLast)
      (fun parent => assignAt parent ((part :: rest).getLastD "") v)

/-- `get_data` (HTTP `/api/get`): resolve, then return the JSON-sanitised
value. -/
def get_data (root : JVal) (path : String) (sep : String) : Except PathErr JVal :=
  match resolve_path root path sep with
  | .ok v => .ok (sanitize_value v)
  | .error e => .error e

/-! ### Basic image and pyramid lemmas -/

theorem Img_ext {α : Type} {a b : Img α} (hh : a.h = b.h) (hw : a.w = b.w)
    (hp : a.pix = b.pix) : a = b := by
  cases a; cases b; cases hh; cases hw; cases hp; rfl

theorem ByteImg_ext {a b : ByteImg} (hh : a.h = b.h) (hw : a.w = b.w)
    (hp : a.pix = b.pix) : a = b := by
  cases a; cases b; cases hh; cases hw; cases hp; rfl

theorem gaussian_pyramid_n_cons {α : Type} [AddCommMonoid α] [Module ℝ α]
    (img : Img α) (n : Nat) :
    ∃ t, gaussian_pyramid_n img n = img :: t := by
  cases n <;> exact ⟨_, rfl⟩

theorem gaussian_pyramid_n_ne_nil {α : Type} [AddCommMonoid α] [Module ℝ α]
    (img : Img α) (n : Nat) : gaussian_pyramid_n img n ≠ [] := by
  obtain ⟨t, ht⟩ := gaussian_pyramid_n_cons img n
  simp [ht]

theorem gaussian_pyramid_n_headD {α : Type} [AddCommMonoid α] [Module ℝ α] [Inhabited α]
    (img : Img α) (n : Nat) : (gaussian_pyramid_n img n).headD default = img := by
  cases n <;> rfl

theorem gaussian_pyramid_n_length {α : Type} [AddCommMonoid α] [Module ℝ α] :
    ∀ (n : Nat) (img : Img α), (gaussian_pyramid_n img n).length = n + 1 := by
  intro n
  induction n with
  | zero => intro img; rfl
  | succ n ih => intro img; simp [gaussian_pyramid_n, ih]

theorem lap_of_ne_nil {α : Type} [AddCommGroup α] [Module ℝ α] [Inhabited α]
    (g : List (Img α)) : lap_of g ≠ [] := by
  simp [lap_of]

theorem reconstruct_singleton {α : Type} [AddCommGroup α] [Module ℝ α] [Inhabited α]
    (a : Img α) : reconstruct [a] = a := by
  simp [reconstruct]

theorem reconstruct_cons {α : Type} [AddCommGroup α] [Module ℝ α] [Inhabited α]
    (a : Img α) (l : List (Img α)) (hl : l ≠ []) :
    reconstruct (a :: l) = addImg (pyrUp (reconstruct l) a.h a.w) a := by
  obtain ⟨b, t, rfl⟩ := List.exists_cons_of_ne_nil hl
  simp [reconstruct, List.dropLast_cons₂, List.getLastD_cons]

theorem lap_of_cons {α : Type} [AddCommGroup α] [Module ℝ α] [Inhabited α]
    (a : Img α) (l : List (Img α)) (hl : l ≠ []) :
    lap_of (a :: l) = subImg a (pyrUp (l.headD default) a.h a.w) :: lap_of l := by
  obtain ⟨b, t, rfl⟩ := List.exists_cons_of_ne_nil hl
  simp [lap_of, List.getLastD_cons]

theorem recon_lap_gauss {α : Type} [AddCommGroup α] [Module ℝ α] [Inhabited α] :
    ∀ (n : Nat) (img : Img α),
      reconstruct (lap_of (gaussian_pyramid_n img n)) = img := by
  intro n
  induction n with
  | zero =>
    intro img
    show reconstruct (lap_of [img]) = img
    simp [lap_of, reconstruct]
  | succ n ih =>
    intro img
    have hne : gaussian_pyramid_n (pyrDown img) n ≠ [] := gaussian_pyramid_n_ne_nil _ _
    have hhead : (gaussian_pyramid_n (pyrDown img) n).headD default = pyrDown img :=
      gaussian_pyramid_n_headD _ _
    show reconstruct (lap_of (img :: gaussian_pyramid_n (pyrDown img) n)) = img
    rw [lap_of_cons _ _ hne, reconstruct_cons _ _ (lap_of_ne_nil _), ih, hhead]
    refine Img_ext rfl rfl ?_
    funext y x
    show (pyrUp (pyrDown img) img.h img.w).pix y x +
        (img.pix y x - (pyrUp (pyrDown img) img.h img.w).pix y x) = img.pix y x
    abel

/-- C4: for every float image `I` and every pyramid depth `L`,
reconstructing the Laplacian pyramid of `I` at depth `L` yields an image of
the same dimensions whose pixels differ from those of `I` by at most
`1e-6` (in exact arithmetic the round-trip is the identity, so the error is
zero). -/
theorem laplacian_roundtrip (img : CImg) (levels : Int) :
    (reconstruct (laplacian_pyramid img levels)).h = img.h ∧
    (reconstruct (laplacian_pyramid img levels)).w = img.w ∧
    ∀ (y x : Nat) (c : Fin 3),
      |(reconstruct (laplacian_pyramid img levels)).pix y x c - img.pix y x c| ≤
        1 / 1000000 := by
  have h : reconstruct (laplacian_pyramid img levels) = img :=
    recon_lap_gauss ((levels - 1).toNat) img
  rw [h]
  refine ⟨rfl, rfl, fun y x c => ?_⟩
  simp

/-! ### Depth selection (C2) -/

/-- C2 counterexample: for an input image whose min spatial dimension is
`4`, the engine chooses pyramid depth `int(log2(4)) - 2 = 0 < 1`; no
minimum-1 clamp exists in the code. -/
theorem depth_clamp_counterexample :
    fuse_num_levels (min 4 7) = 0 ∧ fuse_num_levels (min 4 7) < 1 := by
  have h : min 4 7 = 4 := by norm_num
  rw [h]
  unfold fuse_num_levels
  norm_num [Nat.log2]

/-- C2 (amended): the engine chooses depth `⌊log2 m⌋ - 2` (with
`2 ^ log2 m ≤ m < 2 ^ (log2 m + 1)` witnessing the floor), and no clamp is
applied: the chosen depth is at least `1` exactly when `m ≥ 8`. -/
theorem depth_selection_amended (m : Nat) (hm : 1 ≤ m) :
    fuse_num_levels m = (Nat.log2 m : Int) - 2 ∧
    2 ^ Nat.log2 m ≤ m ∧ m < 2 ^ (Nat.log2 m + 1) ∧
    (1 ≤ fuse_num_levels m ↔ 8 ≤ m) := by
  have hne : m ≠ 0 := by omega
  have h3 : Nat.log2 m < 3 ↔ m < 8 := by
    have := @Nat.log2_lt m 3 hne
    simpa using this
  have h4 : 3 ≤ Nat.log2 m ↔ 8 ≤ m := by
    constructor
    · intro h
      by_contra hc
      exact absurd (h3.mpr (by omega)) (by omega)
    · intro h
      by_contra hc
      exact absurd (h3.mp (by omega)) (by omega)
  have h5 : 1 ≤ fuse_num_levels m ↔ 3 ≤ Nat.log2 m := by
    unfold fuse_num_levels
    omega
  exact ⟨rfl, Nat.log2_self_le hne, Nat.lt_log2_self, h5.trans h4⟩

/-- Witness for `depth_selection_amended` at `m = 16`. -/
theorem depth_selection_amended_witness :
    fuse_num_levels 16 = (Nat.log2 16 : Int) - 2 ∧
    2 ^ Nat.log2 16 ≤ 16 ∧ 16 < 2 ^ (Nat.log2 16 + 1) ∧
    (1 ≤ fuse_num_levels 16 ↔ 8 ≤ 16) :=
  depth_selection_amended 16 (by norm_num)

/-! ### Weight maps (C3) -/

theorem list_pix_sum_div (l : List (Img ℝ)) (y x : Nat) (c : ℝ) :
    (l.map (fun m => m.pix y x / c)).sum = (l.map (fun m => m.pix y x)).sum / c := by
  induction l with
  | nil => simp
  | cons a t ih => simp [ih, add_div]

theorem weight_map_pix_pos (cw sw ew : ℝ) (im : ByteImg) (y x : Nat) :
    0 < (weight_map cw sw ew im).pix y x := by
  show 0 < Real.rpow ((compute_contrast (gray_of im)).pix y x) cw *
      Real.rpow ((compute_saturation im).pix y x) sw *
      Real.rpow ((compute_exposedness im).pix y x) ew + 1 / 10 ^ 12
  have h1 : (0:ℝ) ≤ Real.rpow ((compute_contrast (gray_of im)).pix y x) cw :=
    Real.rpow_nonneg (abs_nonneg _) cw
  have h2 : (0:ℝ) ≤ Real.rpow ((compute_saturation im).pix y x) sw :=
    Real.rpow_nonneg (Real.sqrt_nonneg _) sw
  have hexp : (0:ℝ) < (compute_exposedness im).pix y x := by
    show (0:ℝ) < ∏ c : Fin 3, Real.exp (-(1 / 2) * (norm_pix im y x c - 1 / 2) ^ 2 / ((2 / 10) ^ 2))
    exact Finset.prod_pos (fun c _ => Real.exp_pos _)
  have h3 : (0:ℝ) ≤ Real.rpow ((compute_exposedness im).pix y x) ew :=
    Real.rpow_nonneg (le_of_lt hexp) ew
  have hprod := mul_nonneg (mul_nonneg h1 h2) h3
  have heps : (0:ℝ) < 1 / 10 ^ 12 := by norm_num
  linarith

/-- C3: for every nonempty bracket of byte images (of one shape, as a
bracket has by definition), weight-map generation succeeds and the
normalised maps sum to `1` at every pixel, within `1e-6` (exactly, in
exact arithmetic). -/
theorem weight_maps_sum_to_one (cw sw ew : ℝ) (i0 : ByteImg) (rest : List ByteImg)
    (hshape : ∀ im ∈ i0 :: rest, im.h = i0.h ∧ im.w = i0.w) :
    ∃ maps, generate_weight_maps cw sw ew (i0 :: rest) = .ok maps ∧
      ∀ y x : Nat, |(maps.map (fun m => m.pix y x)).sum - 1| ≤ 1 / 1000000 := by
  have hcond : ∀ im ∈ i0 :: rest,
      im.h = ((i0 :: rest).headD default).h ∧ im.w = ((i0 :: rest).headD default).w := by
    simpa using hshape
  have hok : generate_weight_maps cw sw ew (i0 :: rest) =
      .ok (((i0 :: rest).map (weight_map cw sw ew)).map
        (fun m => divImg m (sumImgs ((i0 :: rest).map (weight_map cw sw ew))))) := by
    unfold generate_weight_maps
    rw [if_pos hcond]
  refine ⟨_, hok, fun y x => ?_⟩
  have hS : 0 < (((i0 :: rest).map (weight_map cw sw ew)).map (fun m => m.pix y x)).sum := by
    apply List.sum_pos
    · intro a ha
      obtain ⟨m, hm, rfl⟩ := List.mem_map.mp ha
      obtain ⟨im, _, rfl⟩ := List.mem_map.mp hm
      exact weight_map_pix_pos cw sw ew im y x
    · simp
  have hsum : ((((i0 :: rest).map (weight_map cw sw ew)).map
        (fun m => divImg m (sumImgs ((i0 :: rest).map (weight_map cw sw ew))))).map
          (fun m => m.pix y x)).sum
      = (((i0 :: rest).map (weight_map cw sw ew)).map (fun m => m.pix y x)).sum /
          (((i0 :: rest).map (weight_map cw sw ew)).map (fun m => m.pix y x)).sum := by
    rw [List.map_map]
    exact list_pix_sum_div _ y x _
  rw [hsum, div_self (ne_of_gt hS)]
  simp

/-- Witness for `weight_maps_sum_to_one` on a one-image bracket. -/
theorem weight_maps_sum_to_one_witness :
    ∃ maps, generate_weight_maps 1 1 1 [ByteImg.mk 1 1 (fun _ _ _ => 0)] = .ok maps ∧
      ∀ y x : Nat, |(maps.map (fun m => m.pix y x)).sum - 1| ≤ 1 / 1000000 :=
  weight_maps_sum_to_one 1 1 1 (ByteImg.mk 1 1 (fun _ _ _ => 0)) []
    (by intro im him; rw [List.mem_singleton] at him; subst him; exact ⟨rfl, rfl⟩)

/-! ### The fusion accumulator -/

theorem accumulate_levels_zero {α : Type} [Add α] [Inhabited α]
    (terms : Nat → Img α) (acc : List (Img α)) :
    accumulate_levels terms 0 acc = acc := rfl

theorem accumulate_levels_succ {α : Type} [Add α] [Inhabited α]
    (terms : Nat → Img α) (n : Nat) (acc : List (Img α)) :
    accumulate_levels terms (n + 1) acc =
      (accumulate_levels terms n acc).set n
        (addImg ((accumulate_levels terms n acc).getD n default) (terms n)) := by
  unfold accumulate_levels
  rw [List.range_succ, List.foldl_append]
  rfl

theorem accumulate_levels_length {α : Type} [Add α] [Inhabited α]
    (terms : Nat → Img α) (n : Nat) (acc : List (Img α)) :
    (accumulate_levels terms n acc).length = acc.length := by
  induction n with
  | zero => rfl
  | succ n ih => rw [accumulate_levels_succ, List.length_set, ih]

theorem accumulate_levels_getD {α : Type} [Add α] [Inhabited α]
    (terms : Nat → Img α) (n : Nat) (acc : List (Img α)) (k : Nat) (hk : k < acc.length) :
    (accumulate_levels terms n acc).getD k default =
      if k < n then addImg (acc.getD k default) (terms k) else acc.getD k default := by
  induction n with
  | zero => simp [accumulate_levels_zero]
  | succ n ih =>
    rw [accumulate_levels_succ]
    have hlen : (accumulate_levels terms n acc).length = acc.length :=
      accumulate_levels_length terms n acc
    by_cases hkn : k = n
    · subst hkn
      have hklt : k < ((accumulate_levels terms k acc).set k
          (addImg ((accumulate_levels terms k acc).getD k default) (terms k))).length := by
        rw [List.length_set, hlen]; exact hk
      rw [List.getD_eq_getElem _ _ hklt, List.getElem_set_self]
      rw [ih, if_neg (lt_irrefl k), if_pos (Nat.lt_succ_self k)]
    · have hklt : k < ((accumulate_levels terms n acc).set n
          (addImg ((accumulate_levels terms n acc).getD n default) (terms n))).length := by
        rw [List.length_set, hlen]; exact hk
      rw [List.getD_eq_getElem _ _ hklt, List.getElem_set_ne (fun h => hkn h.symm)]
      rw [← List.getD_eq_getElem _ default (by rw [hlen]; exact hk), ih]
      by_cases h2 : k < n
      · rw [if_pos h2, if_pos (by omega)]
      · rw [if_neg h2, if_neg (by omega)]

theorem foldl_preserves_shape {α : Type} (g : List (Img α) → Nat → List (Img α))
    [Inhabited α]
    (hglen : ∀ acc i, (g acc i).length = acc.length)
    (hgshape : ∀ acc i k, k < acc.length →
      ((g acc i).getD k default).h = (acc.getD k default).h ∧
      ((g acc i).getD k default).w = (acc.getD k default).w) :
    ∀ (idxs : List Nat) (acc : List (Img α)),
      (idxs.foldl g acc).length = acc.length ∧
      ∀ k, k < acc.length →
        ((idxs.foldl g acc).getD k default).h = (acc.getD k default).h ∧
        ((idxs.foldl g acc).getD k default).w = (acc.getD k default).w := by
  intro idxs
  induction idxs with
  | nil => intro acc; exact ⟨rfl, fun k _ => ⟨rfl, rfl⟩⟩
  | cons i t ih =>
    intro acc
    rw [List.foldl_cons]
    obtain ⟨hlen, hshape⟩ := ih (g acc i)
    refine ⟨by rw [hlen, hglen], fun k hk => ?_⟩
    have hk1 : k < (g acc i).length := by rw [hglen]; exact hk
    obtain ⟨hh, hw⟩ := hshape k hk1
    obtain ⟨hh2, hw2⟩ := hgshape acc i k hk
    exact ⟨hh.trans hh2, hw.trans hw2⟩

theorem accumulate_levels_shape {α : Type} [Add α] [Inhabited α]
    (terms : Nat → Img α) (n : Nat) (acc : List (Img α)) (k : Nat) (hk : k < acc.length) :
    ((accumulate_levels terms n acc).getD k default).h = (acc.getD k default).h ∧
    ((accumulate_levels terms n acc).getD k default).w = (acc.getD k default).w := by
  rw [accumulate_levels_getD terms n acc k hk]
  by_cases hkn : k < n <;> simp [hkn, addImg]

theorem reconstruct_getD_shape {α : Type} [AddCommGroup α] [Module ℝ α] [Inhabited α]
    (l : List (Img α)) (hl : l ≠ []) :
    (reconstruct l).h = (l.getD 0 default).h ∧ (reconstruct l).w = (l.getD 0 default).w := by
  obtain ⟨a, t, rfl⟩ := List.exists_cons_of_ne_nil hl
  cases t with
  | nil => rw [reconstruct_singleton]; exact ⟨rfl, rfl⟩
  | cons b t' =>
    rw [reconstruct_cons a (b :: t') (by simp)]
    exact ⟨rfl, rfl⟩

theorem to_byte_pix_le (im : CImg) (y x : Nat) (c : Fin 3) :
    (to_byte im).pix y x c ≤ 255 := by
  show (Int.floor (min 1 (max 0 (im.pix y x c)) * 255)).toNat ≤ 255
  have h1 : min 1 (max 0 (im.pix y x c)) ≤ 1 := min_le_left _ _
  have h2 : min 1 (max 0 (im.pix y x c)) * 255 ≤ 255 := by nlinarith
  have h3 : (⌊min 1 (max 0 (im.pix y x c)) * 255⌋ : ℤ) ≤ 255 := by
    have h4 := Int.floor_le_floor h2
    have h5 : (⌊(255 : ℝ)⌋ : ℤ) = 255 := by norm_num
    rw [h5] at h4
    exact h4
  exact Int.toNat_le.mpr (by exact_mod_cast h3)

/-! ### Fusion engine shape and range (C1) -/

/-- C1: for every non-empty bracket of identically shaped byte images,
`fuse` succeeds and returns a byte image with the same height, width and
(structurally three) channels, every pixel of which lies in `[0, 255]`. -/
theorem fuse_shape_dtype_range (cw sw ew : ℝ) (i0 : ByteImg) (rest : List ByteImg)
    (hshape : ∀ im ∈ i0 :: rest, im.h = i0.h ∧ im.w = i0.w)
    (hwf : ∀ im ∈ i0 :: rest, ∀ (y x : Nat) (c : Fin 3), im.pix y x c ≤ 255) :
    ∃ out : ByteImg, fuse cw sw ew (i0 :: rest) = .ok (some out) ∧
      out.h = i0.h ∧ out.w = i0.w ∧
      ∀ (y x : Nat) (c : Fin 3), out.pix y x c ≤ 255 := by
  have hcond : ∀ im ∈ i0 :: rest,
      im.h = ((i0 :: rest).headD default).h ∧ im.w = ((i0 :: rest).headD default).w := by
    simpa using hshape
  obtain ⟨W, hgw⟩ : ∃ W, generate_weight_maps cw sw ew (i0 :: rest) = .ok W :=
    ⟨_, by unfold generate_weight_maps; rw [if_pos hcond]⟩
  unfold fuse
  rw [hgw]
  refine ⟨_, rfl, ?_, ?_, fun y x c => to_byte_pix_le _ y x c⟩
  all_goals {
    have hinit_len : ((gaussian_pyramid (to_float i0)
        (fuse_num_levels (min i0.h i0.w))).map zerosLike).length =
        ((fuse_num_levels (min i0.h i0.w)) - 1).toNat + 1 := by
      rw [List.length_map]
      exact gaussian_pyramid_n_length _ _
    have hfold := foldl_preserves_shape
      (fun acc i =>
        accumulate_levels
          (fun level =>
            mul_weight
              ((gaussian_pyramid (W.getD i default)
                  (fuse_num_levels (min i0.h i0.w))).getD level default)
              ((laplacian_pyramid (to_float (((i0 :: rest)).getD i default))
                  (fuse_num_levels (min i0.h i0.w))).getD level default))
          (fuse_num_levels (min i0.h i0.w)).toNat acc)
      (fun acc i => accumulate_levels_length _ _ acc)
      (fun acc i k hk => accumulate_levels_shape _ _ acc k hk)
      (List.range (i0 :: rest).length)
      ((gaussian_pyramid (to_float i0) (fuse_num_levels (min i0.h i0.w))).map zerosLike)
    obtain ⟨hlen, hshape2⟩ := hfold
    have hne : ((List.range (i0 :: rest).length).foldl
        (fun acc i =>
          accumulate_levels
            (fun level =>
              mul_weight
                ((gaussian_pyramid (W.getD i default)
                    (fuse_num_levels (min i0.h i0.w))).getD level default)
                ((laplacian_pyramid (to_float (((i0 :: rest)).getD i default))
                    (fuse_num_levels (min i0.h i0.w))).getD level default))
            (fuse_num_levels (min i0.h i0.w)).toNat acc)
        ((gaussian_pyramid (to_float i0) (fuse_num_levels (min i0.h i0.w))).map zerosLike)) ≠ [] := by
      intro hnil
      rw [← List.length_eq_zero] at hnil
      rw [hlen, hinit_len] at hnil
      omega
    have h0 : 0 < ((gaussian_pyramid (to_float i0)
        (fuse_num_levels (min i0.h i0.w))).map zerosLike).length := by
      rw [hinit_len]; omega
    obtain ⟨hh, hw⟩ := hshape2 0 h0
    have hinit0 : (((gaussian_pyramid (to_float i0)
        (fuse_num_levels (min i0.h i0.w))).map zerosLike).getD 0 default) =
        zerosLike (to_float i0) := by
      obtain ⟨t, ht⟩ := gaussian_pyramid_n_cons (to_float i0)
        ((fuse_num_levels (min i0.h i0.w)) - 1).toNat
      show ((gaussian_pyramid_n (to_float i0)
        ((fuse_num_levels (min i0.h i0.w)) - 1).toNat).map zerosLike).getD 0 default = _
      rw [ht]
      rfl
    obtain ⟨hrh, hrw⟩ := reconstruct_getD_shape _ hne
    first
    | exact hrh.trans (hh.trans (by rw [hinit0]; rfl))
    | exact hrw.trans (hw.trans (by rw [hinit0]; rfl))
  }

/-- Witness for `fuse_shape_dtype_range` on a concrete two-image bracket. -/
theorem fuse_shape_dtype_range_witness :
    ∃ out : ByteImg,
      fuse 1 1 1 [ByteImg.mk 8 8 (fun _ _ _ => 50), ByteImg.mk 8 8 (fun _ _ _ => 200)] =
        .ok (some out) ∧
      out.h = 8 ∧ out.w = 8 ∧ ∀ (y x : Nat) (c : Fin 3), out.pix y x c ≤ 255 :=
  fuse_shape_dtype_range 1 1 1 (ByteImg.mk 8 8 (fun _ _ _ => 50))
    [ByteImg.mk 8 8 (fun _ _ _ => 200)]
    (by
      intro im him
      simp only [List.mem_cons, List.not_mem_nil, or_false] at him
      rcases him with rfl | rfl <;> exact ⟨rfl, rfl⟩)
    (by
      intro im him
      simp only [List.mem_cons, List.not_mem_nil, or_false] at him
      rcases him with rfl | rfl <;> intro y x c
      · show (50 : Nat) ≤ 255
        norm_num
      · show (200 : Nat) ≤ 255
        norm_num)

/-! ### Empty and malformed brackets (C6) -/

/-- C6 counterexample: a two-image bracket of differing shapes is not
rejected with an absent result; the weight-map sum raises (modelled as
`.error`), so no absent (`.ok none`) result is ever produced for it. -/
theorem fuse_mixed_shapes_counterexample :
    generate_weight_maps 1 1 1
        [ByteImg.mk 4 4 (fun _ _ _ => 10), ByteImg.mk 8 8 (fun _ _ _ => 10)] =
      .error .shapeMismatch ∧
    fuse 1 1 1 [ByteImg.mk 4 4 (fun _ _ _ => 10), ByteImg.mk 8 8 (fun _ _ _ => 10)] =
      .error .shapeMismatch ∧
    fuse 1 1 1 [ByteImg.mk 4 4 (fun _ _ _ => 10), ByteImg.mk 8 8 (fun _ _ _ => 10)] ≠
      .ok none := by
  have hgw : generate_weight_maps 1 1 1
      [ByteImg.mk 4 4 (fun _ _ _ => 10), ByteImg.mk 8 8 (fun _ _ _ => 10)] =
      .error .shapeMismatch := by
    unfold generate_weight_maps
    rw [if_neg]
    intro hall
    have h8 := hall (ByteImg.mk 8 8 (fun _ _ _ => 10)) (by simp)
    have : (8 : Nat) = 4 := h8.1
    omega
  have hf : fuse 1 1 1 [ByteImg.mk 4 4 (fun _ _ _ => 10), ByteImg.mk 8 8 (fun _ _ _ => 10)] =
      .error .shapeMismatch := by
    unfold fuse
    rw [hgw]
  exact ⟨hgw, hf, by rw [hf]; simp⟩

/-- C6 (amended): `fuse` returns an absent result (`None`) exactly for the
empty bracket; a mixed-shape bracket is not detected by the engine and does
not yield an absent result (the underlying array arithmetic raises
instead). -/
theorem fuse_none_iff_empty (cw sw ew : ℝ) (images : List ByteImg) :
    fuse cw sw ew images = .ok none ↔ images = [] := by
  cases images with
  | nil => simp [fuse]
  | cons i0 rest =>
    constructor
    · intro h
      rcases hgw : generate_weight_maps cw sw ew (i0 :: rest) with e | W
      · have he : fuse cw sw ew (i0 :: rest) = .error e := by
          unfold fuse
          rw [hgw]
        rw [he] at h
        exact absurd h (by simp)
      · obtain ⟨out, ho⟩ : ∃ out, fuse cw sw ew (i0 :: rest) = .ok (some out) :=
          ⟨_, by unfold fuse; rw [hgw]⟩
        rw [ho] at h
        exact absurd h (by simp)
    · intro h
      exact absurd h (by simp)

/-- Witness for `fuse_none_iff_empty` at the empty bracket. -/
theorem fuse_none_iff_empty_witness :
    fuse 1 1 1 ([] : List ByteImg) = .ok none :=
  (fuse_none_iff_empty 1 1 1 []).mpr rfl

/-! ### Single-image brackets (C5) -/

theorem fuse_single_degenerate (cw sw ew : ℝ) (i0 : ByteImg)
    (h0 : fuse_num_levels (min i0.h i0.w) ≤ 0) :
    fuse cw sw ew [i0] = .ok (some (to_byte (zerosLike (to_float i0)))) := by
  obtain ⟨W, hgw⟩ : ∃ W, generate_weight_maps cw sw ew [i0] = .ok W :=
    ⟨_, by
      unfold generate_weight_maps
      rw [if_pos]
      intro im him
      simp only [List.mem_cons, List.not_mem_nil, or_false] at him
      subst him
      exact ⟨rfl, rfl⟩⟩
  have hL1 : ((fuse_num_levels (min i0.h i0.w)) - 1).toNat = 0 := by omega
  have hL2 : (fuse_num_levels (min i0.h i0.w)).toNat = 0 := by omega
  have hgp : gaussian_pyramid (to_float i0) (fuse_num_levels (min i0.h i0.w)) =
      [to_float i0] := by
    unfold gaussian_pyramid
    rw [hL1]
    rfl
  unfold fuse
  rw [hgw]
  show Except.ok (some (to_byte (reconstruct ((List.range (List.length [i0])).foldl
      (fun acc i =>
        accumulate_levels
          (fun level =>
            mul_weight
              ((gaussian_pyramid (W.getD i default)
                  (fuse_num_levels (min i0.h i0.w))).getD level default)
              ((laplacian_pyramid (to_float (([i0]).getD i default))
                  (fuse_num_levels (min i0.h i0.w))).getD level default))
          (fuse_num_levels (min i0.h i0.w)).toNat acc)
      ((gaussian_pyramid (to_float i0) (fuse_num_levels (min i0.h i0.w))).map zerosLike))))) =
    Except.ok (some (to_byte (zerosLike (to_float i0))))
  rw [hgp, hL2]
  have hr1 : List.range 1 = [0] := rfl
  simp only [List.length_singleton, hr1, List.foldl_cons, List.foldl_nil,
    List.map_cons, List.map_nil]
  rw [accumulate_levels_zero, reconstruct_singleton]

/-- C5 counterexample: for a 4×4 byte image of constant value 100 the
single-image fusion returns the all-zero image (the unclamped depth is 0,
so no pyramid level is ever blended), which differs from the input by 100
per channel, far beyond the claimed ±2. -/
theorem fuse_single_small_counterexample :
    fuse 1 1 1 [ByteImg.mk 4 4 (fun _ _ _ => 100)] =
      .ok (some (ByteImg.mk 4 4 (fun _ _ _ => 0))) ∧
    2 < (ByteImg.mk 4 4 (fun _ _ _ => 100)).pix 0 0 0 -
        (ByteImg.mk 4 4 (fun _ _ _ => 0)).pix 0 0 0 := by
  constructor
  · have hdeg := fuse_single_degenerate 1 1 1 (ByteImg.mk 4 4 (fun _ _ _ => 100))
      (by
        show fuse_num_levels (min 4 4) ≤ 0
        have h : min 4 4 = 4 := by norm_num
        rw [h]
        unfold fuse_num_levels
        norm_num [Nat.log2])
    rw [hdeg]
    have hz : to_byte (zerosLike (to_float (ByteImg.mk 4 4 (fun _ _ _ => 100)))) =
        ByteImg.mk 4 4 (fun _ _ _ => 0) := by
      refine ByteImg_ext rfl rfl ?_
      funext y x c
      show (Int.floor (min 1 (max 0 ((0 : Pix3) c)) * 255)).toNat = 0
      norm_num
    rw [hz]
  · show 2 < 100 - 0
    norm_num

/-! ### Single-image fusion is exact for non-degenerate sizes (C5, amended) -/

theorem k5_sum : ∑ i : Fin 5, k5 i = 1 := by
  unfold k5
  rw [Fin.sum_univ_five]
  norm_num [show ((3 : Fin 5)).val = 3 from rfl, show ((4 : Fin 5)).val = 4 from rfl]

theorem pyrDown_pix_const (im : Img ℝ) (c : ℝ) (h : ∀ y x, im.pix y x = c) :
    ∀ y x, (pyrDown im).pix y x = c := by
  intro y x
  show (∑ i : Fin 5, ∑ j : Fin 5,
      (k5 i * k5 j) •
        im.pix (refl101 im.h (2 * (y : Int) + (i.val : Int) - 2))
               (refl101 im.w (2 * (x : Int) + (j.val : Int) - 2))) = c
  simp only [h]
  have hrow : ∀ i : Fin 5, ∑ j : Fin 5, (k5 i * k5 j) • c = k5 i * c := by
    intro i
    rw [← Finset.sum_smul, ← Finset.mul_sum, k5_sum, mul_one, smul_eq_mul]
  rw [Finset.sum_congr rfl (fun i _ => hrow i), ← Finset.sum_mul, k5_sum, one_mul]

theorem gaussian_pyramid_n_pix_const :
    ∀ (n : Nat) (im : Img ℝ), (∀ y x, im.pix y x = 1) →
      ∀ lvl ∈ gaussian_pyramid_n im n, ∀ y x, lvl.pix y x = 1 := by
  intro n
  induction n with
  | zero =>
    intro im him lvl hlvl
    rw [show gaussian_pyramid_n im 0 = [im] from rfl] at hlvl
    simp only [List.mem_cons, List.not_mem_nil, or_false] at hlvl
    subst hlvl
    exact him
  | succ n ih =>
    intro im him lvl hlvl
    rw [show gaussian_pyramid_n im (n + 1) = im :: gaussian_pyramid_n (pyrDown im) n from rfl]
      at hlvl
    rcases List.mem_cons.mp hlvl with rfl | hmem
    · exact him
    · exact ih (pyrDown im) (pyrDown_pix_const im 1 him) lvl hmem

theorem norm_weight_single_pix (cw sw ew : ℝ) (i0 : ByteImg) (y x : Nat) :
    (divImg (weight_map cw sw ew i0) (sumImgs [weight_map cw sw ew i0])).pix y x = 1 := by
  show (weight_map cw sw ew i0).pix y x / (sumImgs [weight_map cw sw ew i0]).pix y x = 1
  have hs : (sumImgs [weight_map cw sw ew i0]).pix y x = (weight_map cw sw ew i0).pix y x := by
    show ([weight_map cw sw ew i0].map (fun im => im.pix y x)).sum = _
    simp
  rw [hs, div_self (ne_of_gt (weight_map_pix_pos cw sw ew i0 y x))]

theorem getLastD_eq_getD {α : Type} :
    ∀ (l : List α) (d : α), l ≠ [] → l.getLastD d = l.getD (l.length - 1) d := by
  intro l
  induction l with
  | nil => intro d h; exact absurd rfl h
  | cons a t ih =>
    intro d _
    cases t with
    | nil => rfl
    | cons b t' =>
      rw [List.getLastD_cons, ih a (by simp)]
      have hlen1 : (b :: t').length - 1 = t'.length := by simp
      have hlen2 : (a :: b :: t').length - 1 = t'.length + 1 := by simp
      rw [hlen1, hlen2]
      rw [List.getD_eq_getElem _ a (by simp), List.getD_eq_getElem _ d (by simp)]
      rw [List.getElem_cons_succ]

theorem lap_of_length {α : Type} [AddCommGroup α] [Module ℝ α] [Inhabited α]
    (g : List (Img α)) : (lap_of g).length = (g.length - 1) + 1 := by
  unfold lap_of
  rw [List.length_append, List.length_map, List.length_zip, List.length_tail,
    List.length_singleton]
  omega

theorem lap_of_getD {α : Type} [AddCommGroup α] [Module ℝ α] [Inhabited α]
    (g : List (Img α)) (k : Nat) (hk : k < g.length) :
    (lap_of g).getD k default =
      if k + 1 < g.length then
        subImg (g.getD k default)
          (pyrUp (g.getD (k + 1) default) (g.getD k default).h (g.getD k default).w)
      else g.getD k default := by
  have hzlen : (g.zip g.tail).length = g.length - 1 := by
    rw [List.length_zip, List.length_tail]
    omega
  have hmlen : ((g.zip g.tail).map (fun p => subImg p.1 (pyrUp p.2 p.1.h p.1.w))).length =
      g.length - 1 := by
    rw [List.length_map, hzlen]
  have hlap : (lap_of g).length = (g.length - 1) + 1 := lap_of_length g
  have hgd : (lap_of g).getD k default =
      ((g.zip g.tail).map (fun p => subImg p.1 (pyrUp p.2 p.1.h p.1.w)) ++
        [g.getLastD default]).getD k default := rfl
  by_cases hk1 : k + 1 < g.length
  · rw [if_pos hk1, hgd, List.getD_append _ _ _ _ (by omega)]
    have hkm : k < ((g.zip g.tail).map (fun p => subImg p.1 (pyrUp p.2 p.1.h p.1.w))).length := by
      omega
    rw [List.getD_eq_getElem _ _ hkm, List.getElem_map, List.getElem_zip, List.getElem_tail]
    rw [List.getD_eq_getElem _ _ hk, List.getD_eq_getElem _ _ hk1]
  · rw [if_neg hk1, hgd]
    have hke : k = g.length - 1 := by omega
    have hA : ((g.zip g.tail).map (fun p => subImg p.1 (pyrUp p.2 p.1.h p.1.w))).length ≤ k := by
      omega
    have hklap : k < (((g.zip g.tail).map (fun p => subImg p.1 (pyrUp p.2 p.1.h p.1.w))) ++
        [g.getLastD default]).length := by
      rw [List.length_append, List.length_singleton, hmlen]
      omega
    rw [List.getD_eq_getElem _ _ hklap, List.getElem_append_right hA]
    have hidx : k - ((g.zip g.tail).map (fun p => subImg p.1 (pyrUp p.2 p.1.h p.1.w))).length = 0 := by
      omega
    simp only [hidx, List.getElem_cons_zero]
    rw [getLastD_eq_getD g default (by intro hnil; rw [hnil] at hk; simp at hk), ← hke]

theorem to_byte_to_float (i0 : ByteImg)
    (hwf : ∀ (y x : Nat) (c : Fin 3), i0.pix y x c ≤ 255) :
    to_byte (to_float i0) = i0 := by
  refine ByteImg_ext rfl rfl ?_
  funext y x c
  show (Int.floor (min 1 (max 0 ((i0.pix y x c : ℝ) / 255)) * 255)).toNat = i0.pix y x c
  have h0 : (0 : ℝ) ≤ (i0.pix y x c : ℝ) / 255 := by positivity
  have h1 : (i0.pix y x c : ℝ) / 255 ≤ 1 := by
    rw [div_le_one (by norm_num)]
    exact_mod_cast hwf y x c
  rw [max_eq_right h0, min_eq_right h1, div_mul_cancel₀ _ (by norm_num : (255:ℝ) ≠ 0)]
  rw [Int.floor_natCast, Int.toNat_natCast]

theorem one_le_fuse_num_levels (m : Nat) (hm : 8 ≤ m) : 1 ≤ fuse_num_levels m := by
  have hne : m ≠ 0 := by omega
  have h3 : 3 ≤ Nat.log2 m := by
    by_contra hc
    have := (@Nat.log2_lt m 3 hne).mp (by omega)
    omega
  unfold fuse_num_levels
  omega

theorem accum_single_eq_lap (cw sw ew : ℝ) (i0 : ByteImg) (L : Int) (hL1 : 1 ≤ L) :
    accumulate_levels
      (fun level =>
        mul_weight
          ((gaussian_pyramid (divImg (weight_map cw sw ew i0)
              (sumImgs [weight_map cw sw ew i0])) L).getD level default)
          ((laplacian_pyramid (to_float i0) L).getD level default))
      L.toNat
      ((gaussian_pyramid (to_float i0) L).map zerosLike) =
    laplacian_pyramid (to_float i0) L := by
  have hglen : (gaussian_pyramid (to_float i0) L).length = (L - 1).toNat + 1 :=
    gaussian_pyramid_n_length _ _
  have hntn : (L - 1).toNat + 1 = L.toNat := by omega
  have hlaplen : (laplacian_pyramid (to_float i0) L).length =
      (gaussian_pyramid (to_float i0) L).length := by
    show (lap_of (gaussian_pyramid (to_float i0) L)).length = _
    rw [lap_of_length]
    omega
  have hinitlen : ((gaussian_pyramid (to_float i0) L).map zerosLike).length =
      (gaussian_pyramid (to_float i0) L).length := List.length_map _ _
  apply List.ext_getElem
  · rw [accumulate_levels_length, hinitlen, hlaplen]
  · intro k h1 h2
    have hk : k < (gaussian_pyramid (to_float i0) L).length := by
      rw [accumulate_levels_length, hinitlen] at h1
      exact h1
    have hkL : k < L.toNat := by omega
    rw [← List.getD_eq_getElem _ default h1, ← List.getD_eq_getElem _ default h2]
    rw [accumulate_levels_getD _ _ _ k (by rw [hinitlen]; exact hk)]
    rw [if_pos hkL]
    have hinitgetD : ((gaussian_pyramid (to_float i0) L).map zerosLike).getD k default =
        zerosLike ((gaussian_pyramid (to_float i0) L).getD k default) := by
      rw [List.getD_eq_getElem _ _ (by rw [hinitlen]; exact hk), List.getElem_map,
        List.getD_eq_getElem _ _ hk]
    rw [hinitgetD]
    have hW1 : ∀ y x : Nat, ((gaussian_pyramid (divImg (weight_map cw sw ew i0)
        (sumImgs [weight_map cw sw ew i0])) L).getD k default).pix y x = 1 := by
      intro y x
      have hwlen : (gaussian_pyramid (divImg (weight_map cw sw ew i0)
          (sumImgs [weight_map cw sw ew i0])) L).length = (L - 1).toNat + 1 :=
        gaussian_pyramid_n_length _ _
      have hkw : k < (gaussian_pyramid (divImg (weight_map cw sw ew i0)
          (sumImgs [weight_map cw sw ew i0])) L).length := by omega
      rw [List.getD_eq_getElem _ _ hkw]
      exact gaussian_pyramid_n_pix_const ((L - 1).toNat) _
        (norm_weight_single_pix cw sw ew i0) _ (List.getElem_mem hkw) y x
    have hlapdef : laplacian_pyramid (to_float i0) L =
        lap_of (gaussian_pyramid (to_float i0) L) := rfl
    have hlk := lap_of_getD (gaussian_pyramid (to_float i0) L) k hk
    rw [hlapdef, hlk]
    by_cases hk1 : k + 1 < (gaussian_pyramid (to_float i0) L).length
    · rw [if_pos hk1]
      refine Img_ext rfl rfl ?_
      funext y x c
      have hW := hW1 y x
      simp only [addImg, zerosLike, mul_weight, Pi.add_apply, Pi.zero_apply]
      rw [hW]
      ring
    · rw [if_neg hk1]
      refine Img_ext rfl rfl ?_
      funext y x c
      have hW := hW1 y x
      simp only [addImg, zerosLike, mul_weight, Pi.add_apply, Pi.zero_apply]
      rw [hW]
      ring

/-- C5 (amended): for a byte image whose min spatial dimension is at least
8 (so the unclamped depth is ≥ 1), fusing the single-image bracket returns
the input image exactly — in particular within ±2 per channel.  For
smaller images the missing depth clamp produces an all-zero image instead
(see the counterexample). -/
theorem fuse_single_exact (cw sw ew : ℝ) (i0 : ByteImg)
    (hdim : 8 ≤ min i0.h i0.w)
    (hwf : ∀ (y x : Nat) (c : Fin 3), i0.pix y x c ≤ 255) :
    fuse cw sw ew [i0] = .ok (some i0) := by
  have hL1 : 1 ≤ fuse_num_levels (min i0.h i0.w) := one_le_fuse_num_levels _ hdim
  have hgw : generate_weight_maps cw sw ew [i0] =
      .ok [divImg (weight_map cw sw ew i0) (sumImgs [weight_map cw sw ew i0])] := by
    unfold generate_weight_maps
    rw [if_pos]
    · rfl
    · intro im him
      simp only [List.mem_cons, List.not_mem_nil, or_false] at him
      subst him
      exact ⟨rfl, rfl⟩
  unfold fuse
  rw [hgw]
  show Except.ok (some (to_byte (reconstruct ((List.range (List.length [i0])).foldl
      (fun acc i =>
        accumulate_levels
          (fun level =>
            mul_weight
              ((gaussian_pyramid (([divImg (weight_map cw sw ew i0)
                  (sumImgs [weight_map cw sw ew i0])]).getD i default)
                  (fuse_num_levels (min i0.h i0.w))).getD level default)
              ((laplacian_pyramid (to_float (([i0]).getD i default))
                  (fuse_num_levels (min i0.h i0.w))).getD level default))
          (fuse_num_levels (min i0.h i0.w)).toNat acc)
      ((gaussian_pyramid (to_float i0) (fuse_num_levels (min i0.h i0.w))).map zerosLike))))) =
    Except.ok (some i0)
  have hr1 : List.range 1 = [0] := rfl
  simp only [List.length_singleton, hr1, List.foldl_cons, List.foldl_nil, List.getD_cons_zero]
  rw [accum_single_eq_lap cw sw ew i0 (fuse_num_levels (min i0.h i0.w)) hL1]
  rw [show reconstruct (laplacian_pyramid (to_float i0) (fuse_num_levels (min i0.h i0.w))) =
      to_float i0 from recon_lap_gauss _ _]
  rw [to_byte_to_float i0 hwf]

/-- Witness for `fuse_single_exact` on a concrete 8×8 constant image. -/
theorem fuse_single_exact_witness :
    fuse 1 1 1 [ByteImg.mk 8 8 (fun _ _ _ => 100)] =
      .ok (some (ByteImg.mk 8 8 (fun _ _ _ => 100))) :=
  fuse_single_exact 1 1 1 (ByteImg.mk 8 8 (fun _ _ _ => 100))
    (by norm_num)
    (by
      intro y x c
      show (100 : Nat) ≤ 255
      norm_num)

/-! ### The adaptive settling loop (C7) -/

/-- C7 counterexample: starting from the loop's initial state with
`last_mean = 100`, the frame sequence `[115, 115.9]` leaves `has_changed`
false after the first frame, and the second frame — the one that first
detects the change — also runs the stability check in the same iteration:
`stable_count` ends at 1, not 0 as the claimed `if`/`else` phasing would
give. -/
theorem settle_first_change_counterexample :
    (settle_run 100 [115]).1.hasChanged = false ∧
    (settle_run 100 [115, 1159 / 10]).1.hasChanged = true ∧
    (settle_run 100 [115, 1159 / 10]).1.stableCount = 1 := by
  have h1 : settle_step 100 115 ⟨false, 0, 0⟩ = (⟨false, 0, 115⟩, false) := by
    norm_num [settle_step, safe_old_of]
  have h2 : settle_step 100 (1159 / 10) ⟨false, 0, 115⟩ = (⟨true, 1, 1159 / 10⟩, false) := by
    norm_num [settle_step, safe_old_of]
    norm_num [abs_of_nonneg]
  have e0 : settle_run 100 [115] = settle_step 100 115 ⟨false, 0, 0⟩ := rfl
  have e1 : settle_run 100 [115, 1159 / 10] =
      (if (settle_step 100 115 ⟨false, 0, 0⟩).2 = true
       then settle_step 100 115 ⟨false, 0, 0⟩
       else settle_step 100 (1159 / 10) (settle_step 100 115 ⟨false, 0, 0⟩).1) := rfl
  refine ⟨?_, ?_, ?_⟩
  · rw [e0, h1]
  · rw [e1, h1, if_neg (by simp)]
    rw [show ((⟨false, 0, 115⟩, false) : SettleState × Bool).1 = ⟨false, 0, 115⟩ from rfl, h2]
  · rw [e1, h1, if_neg (by simp)]
    rw [show ((⟨false, 0, 115⟩, false) : SettleState × Bool).1 = ⟨false, 0, 115⟩ from rfl, h2]

/-- C7 (amended): in an iteration entered with `has_changed = false`, if
the relative change stays within the threshold then only the change test
runs (the counter and the break flag are untouched and `prev_b` is
updated); but if the change test fires, the same iteration also performs
the stability update — the two phases are sequential `if`s, not an
`if`/`else`. -/
theorem settle_step_phases (lastMean currB : ℚ) (s : SettleState)
    (hnc : s.hasChanged = false) :
    (|currB - safe_old_of lastMean| / safe_old_of lastMean ≤ 15 / 100 →
      settle_step lastMean currB s = (⟨false, s.stableCount, currB⟩, false)) ∧
    (|currB - safe_old_of lastMean| / safe_old_of lastMean > 15 / 100 →
      (settle_step lastMean currB s).1.hasChanged = true ∧
      (settle_step lastMean currB s).1.stableCount =
        (if |currB - s.prevB| < 1 then s.stableCount + 1 else 0)) := by
  constructor
  · intro h
    have h1 : ¬ (|currB - safe_old_of lastMean| / safe_old_of lastMean > 15 / 100) :=
      not_lt.mpr h
    simp [settle_step, hnc, h1]
  · intro h
    simp only [settle_step, hnc]
    simp only [Bool.not_eq_true, Bool.false_eq_true, not_false_eq_true, true_and, h, if_pos]
    split <;> split <;> simp

/-- Witness for `settle_step_phases`: with `last_mean = 100`, a frame of
mean 120 both sets `has_changed` and performs the stability update. -/
theorem settle_step_phases_witness :
    (settle_step 100 120 ⟨false, 0, 50⟩).1.hasChanged = true ∧
    (settle_step 100 120 ⟨false, 0, 50⟩).1.stableCount =
      (if |(120 : ℚ) - 50| < 1 then 0 + 1 else 0) :=
  (settle_step_phases 100 120 ⟨false, 0, 50⟩ rfl).2 (by norm_num [safe_old_of])

/-! ### The fusion-state mailbox (C8) -/

/-- C8 counterexample: with the worker at the top of its loop in state
`READY`, an external `REQUESTED` write followed by one worker step makes
the worker begin a bracket (enter `PROCESSING`/busy) although
`fusion_state` was never `IDLE` in between. -/
theorem requested_during_ready_counterexample :
    (WSys.mk FState.ready WPc.top).fs ≠ FState.idle ∧
    (ext_write FState.requested ⟨FState.ready, WPc.top⟩).fs ≠ FState.idle ∧
    run_events [Ev.ext FState.requested, Ev.worker] ⟨FState.ready, WPc.top⟩ =
      ⟨FState.processing, WPc.busy⟩ := by
  decide

/-- C8 (amended): a `REQUESTED` written while the worker is mid-bracket is
discarded — finishing the bracket assigns `READY` over whatever the
mailbox holds; and at the top of its loop the worker begins a bracket
exactly when it observes `REQUESTED`, with no requirement that the state
passed through `IDLE` first (in particular a `REQUESTED` written during
`READY` starts a bracket immediately). -/
theorem worker_mailbox_amended (s : WSys) :
    (s.pc = WPc.busy → worker_step s = ⟨FState.ready, WPc.top⟩) ∧
    (s.pc = WPc.top → ((worker_step s).pc = WPc.busy ↔ s.fs = FState.requested)) := by
  rcases s with ⟨fs, pc⟩
  cases fs <;> cases pc <;> exact ⟨by decide, by decide⟩

/-- Witness for `worker_mailbox_amended` at two concrete states. -/
theorem worker_mailbox_amended_witness :
    worker_step ⟨FState.idle, WPc.busy⟩ = ⟨FState.ready, WPc.top⟩ ∧
    ((worker_step ⟨FState.requested, WPc.top⟩).pc = WPc.busy ↔
      (WSys.mk FState.requested WPc.top).fs = FState.requested) :=
  ⟨(worker_mailbox_amended ⟨FState.idle, WPc.busy⟩).1 rfl,
   (worker_mailbox_amended ⟨FState.requested, WPc.top⟩).2 rfl⟩

/-! ### State store lemmas (C9, C10) -/

theorem lookupKey_objReplace (entries : List (String × JVal)) (k : String) (v c : JVal)
    (h : lookupKey entries k = some c) :
    lookupKey (objReplace entries k v) k = some v := by
  induction entries with
  | nil => simp [lookupKey] at h
  | cons e t ih =>
    obtain ⟨k', w⟩ := e
    by_cases hk : k' = k
    · simp [lookupKey, objReplace, hk]
    · simp only [lookupKey, objReplace, if_neg hk] at h ⊢
      exact ih h

theorem lookupKey_append_self (entries : List (String × JVal)) (k : String) (v : JVal)
    (h : lookupKey entries k = none) :
    lookupKey (entries ++ [(k, v)]) k = some v := by
  induction entries with
  | nil => simp [lookupKey]
  | cons e t ih =>
    obtain ⟨k', w⟩ := e
    by_cases hk : k' = k
    · simp [lookupKey, hk] at h
    · simp only [List.cons_append, lookupKey, if_neg hk] at h ⊢
      exact ih h

theorem lookupKey_objInsert (entries : List (String × JVal)) (k : String) (v : JVal) :
    lookupKey (objInsert entries k v) k = some v := by
  unfold objInsert
  by_cases h : (lookupKey entries k).isSome
  · rw [if_pos h]
    obtain ⟨c, hc⟩ := Option.isSome_iff_exists.mp h
    exact lookupKey_objReplace entries k v c hc
  · rw [if_neg h]
    exact lookupKey_append_self entries k v (Option.not_isSome_iff_eq_none.mp h)

theorem pySet_pyIndex (l : List JVal) (i : Int) (v : JVal) (l' : List JVal)
    (h : pySet l i v = some l') : pyIndex l' i = some v := by
  unfold pySet at h
  by_cases h0 : 0 ≤ i
  · rw [if_pos h0] at h
    by_cases h1 : i < (l.length : Int)
    · rw [if_pos h1] at h
      injection h with h
      subst h
      unfold pyIndex
      rw [if_pos h0]
      have hm : i.toNat < (l.set i.toNat v).length := by
        rw [List.length_set]
        omega
      rw [List.get?_eq_getElem?, List.getElem?_eq_getElem hm]
      exact congrArg some (List.getElem_set_self hm)
    · rw [if_neg h1] at h
      exact absurd h (by simp)
  · rw [if_neg h0] at h
    by_cases h2 : 0 ≤ i + (l.length : Int)
    · rw [if_pos h2] at h
      injection h with h
      subst h
      unfold pyIndex
      rw [if_neg h0, List.length_set]
      rw [if_pos h2]
      have hm : (i + (l.length : Int)).toNat < (l.set (i + (l.length : Int)).toNat v).length := by
        rw [List.length_set]
        omega
      rw [List.get?_eq_getElem?, List.getElem?_eq_getElem hm]
      exact congrArg some (List.getElem_set_self hm)
    · rw [if_neg h2] at h
      exact absurd h (by simp)

theorem pyIndex_pySet (l : List JVal) (i : Int) (c : JVal)
    (h : pyIndex l i = some c) (v : JVal) : ∃ l', pySet l i v = some l' := by
  unfold pyIndex at h
  unfold pySet
  by_cases h0 : 0 ≤ i
  · rw [if_pos h0] at h ⊢
    have hlt : i.toNat < l.length := by
      by_contra hc
      rw [List.get?_eq_getElem?, List.getElem?_eq_none (by omega)] at h
      exact absurd h (by simp)
    rw [if_pos (by omega)]
    exact ⟨_, rfl⟩
  · rw [if_neg h0] at h ⊢
    by_cases h2 : 0 ≤ i + (l.length : Int)
    · rw [if_pos h2] at h ⊢
      exact ⟨_, rfl⟩
    · rw [if_neg h2] at h
      exact absurd h (by simp)

theorem resolveParts_obj_cons (entries : List (String × JVal)) (part : String)
    (rest : List String) :
    resolveParts (JVal.obj entries) (part :: rest) =
      match lookupKey entries part with
      | some child => resolveParts child rest
      | none => .error (.keyNotFound part) := rfl

theorem resolveParts_arr_cons (elems : List JVal) (part : String) (rest : List String) :
    resolveParts (JVal.arr elems) (part :: rest) =
      match parse_int part with
      | none => .error (.badIndex part)
      | some idx =>
        match pyIndex elems idx with
        | some child => resolveParts child rest
        | none => .error (.indexOutOfRange idx) := rfl

theorem updateAtParts_obj_cons (entries : List (String × JVal)) (part : String)
    (rest : List String) (f : JVal → Except PathErr JVal) :
    updateAtParts (JVal.obj entries) (part :: rest) f =
      match lookupKey entries part with
      | some child =>
        match updateAtParts child rest f with
        | .ok child' => .ok (.obj (objReplace entries part child'))
        | .error e => .error e
      | none => .error (.keyNotFound part) := rfl

theorem updateAtParts_arr_cons (elems : List JVal) (part : String)
    (rest : List String) (f : JVal → Except PathErr JVal) :
    updateAtParts (JVal.arr elems) (part :: rest) f =
      match parse_int part with
      | none => .error (.badIndex part)
      | some idx =>
        match pyIndex elems idx with
        | some child =>
          match updateAtParts child rest f with
          | .ok child' =>
            match pySet elems idx child' with
            | some elems' => .ok (.arr elems')
            | none => .error (.indexOutOfRange idx)
          | .error e => .error e
        | none => .error (.indexOutOfRange idx) := rfl

theorem assignAt_arr (elems : List JVal) (key : String) (v : JVal) :
    assignAt (JVal.arr elems) key v =
      match parse_int key with
      | none => .error (.badIndex key)
      | some idx =>
        match pySet elems idx v with
        | some elems' => .ok (.arr elems')
        | none => .error (.indexOutOfRange idx) := rfl

theorem resolveParts_obj_found (entries : List (String × JVal)) (part : String)
    (rest : List String) (child : JVal) (hl : lookupKey entries part = some child) :
    resolveParts (JVal.obj entries) (part :: rest) = resolveParts child rest := by
  rw [resolveParts_obj_cons, hl]

theorem resolveParts_obj_missing (entries : List (String × JVal)) (part : String)
    (rest : List String) (hl : lookupKey entries part = none) :
    resolveParts (JVal.obj entries) (part :: rest) = .error (.keyNotFound part) := by
  rw [resolveParts_obj_cons, hl]

theorem resolveParts_arr_badindex (elems : List JVal) (part : String)
    (rest : List String) (hp : parse_int part = none) :
    resolveParts (JVal.arr elems) (part :: rest) = .error (.badIndex part) := by
  rw [resolveParts_arr_cons, hp]

theorem resolveParts_arr_found (elems : List JVal) (part : String) (rest : List String)
    (idx : Int) (child : JVal) (hp : parse_int part = some idx)
    (hi : pyIndex elems idx = some child) :
    resolveParts (JVal.arr elems) (part :: rest) = resolveParts child rest := by
  rw [resolveParts_arr_cons, hp]
  show (match pyIndex elems idx with
    | some child => resolveParts child rest
    | none => Except.error (PathErr.indexOutOfRange idx)) = _
  rw [hi]

theorem resolveParts_arr_oor (elems : List JVal) (part : String) (rest : List String)
    (idx : Int) (hp : parse_int part = some idx) (hi : pyIndex elems idx = none) :
    resolveParts (JVal.arr elems) (part :: rest) = .error (.indexOutOfRange idx) := by
  rw [resolveParts_arr_cons, hp]
  show (match pyIndex elems idx with
    | some child => resolveParts child rest
    | none => Except.error (PathErr.indexOutOfRange idx)) = _
  rw [hi]

theorem updateAtParts_obj_found (entries : List (String × JVal)) (part : String)
    (rest : List String) (f : JVal → Except PathErr JVal) (child child' : JVal)
    (hl : lookupKey entries part = some child)
    (hup : updateAtParts child rest f = .ok child') :
    updateAtParts (JVal.obj entries) (part :: rest) f =
      .ok (.obj (objReplace entries part child')) := by
  rw [updateAtParts_obj_cons, hl]
  show (match updateAtParts child rest f with
    | Except.ok child' => Except.ok (JVal.obj (objReplace entries part child'))
    | Except.error e => Except.error e) = _
  rw [hup]

theorem updateAtParts_arr_found (elems : List JVal) (part : String) (rest : List String)
    (f : JVal → Except PathErr JVal) (idx : Int) (child child' : JVal)
    (elems' : List JVal) (hp : parse_int part = some idx)
    (hi : pyIndex elems idx = some child)
    (hup : updateAtParts child rest f = .ok child')
    (hset : pySet elems idx child' = some elems') :
    updateAtParts (JVal.arr elems) (part :: rest) f = .ok (.arr elems') := by
  rw [updateAtParts_arr_cons, hp]
  show (match pyIndex elems idx with
    | some child =>
      match updateAtParts child rest f with
      | Except.ok child' =>
        match pySet elems idx child' with
        | some elems' => Except.ok (JVal.arr elems')
        | none => Except.error (PathErr.indexOutOfRange idx)
      | Except.error e => Except.error e
    | none => Except.error (PathErr.indexOutOfRange idx)) = _
  rw [hi]
  show (match updateAtParts child rest f with
    | Except.ok child' =>
      match pySet elems idx child' with
      | some elems' => Except.ok (JVal.arr elems')
      | none => Except.error (PathErr.indexOutOfRange idx)
    | Except.error e => Except.error e) = _
  rw [hup]
  show (match pySet elems idx child' with
    | some elems' => Except.ok (JVal.arr elems')
    | none => Except.error (PathErr.indexOutOfRange idx)) = _
  rw [hset]

theorem assignAt_arr_ok (elems : List JVal) (key : String) (v : JVal) (idx : Int)
    (elems' : List JVal) (hp : parse_int key = some idx)
    (hset : pySet elems idx v = some elems') :
    assignAt (JVal.arr elems) key v = .ok (.arr elems') := by
  rw [assignAt_arr, hp]
  show (match pySet elems idx v with
    | some elems' => Except.ok (JVal.arr elems')
    | none => Except.error (PathErr.indexOutOfRange idx)) = _
  rw [hset]

theorem resolveParts_append :
    ∀ (l1 : List String) (node : JVal) (l2 : List String),
      resolveParts node (l1 ++ l2) =
        match resolveParts node l1 with
        | .ok m => resolveParts m l2
        | .error e => .error e := by
  intro l1
  induction l1 with
  | nil => intro node l2; rfl
  | cons part rest ih =>
    intro node l2
    rw [List.cons_append]
    cases node
    case obj entries =>
      cases hl : lookupKey entries part with
      | some child =>
        rw [resolveParts_obj_found entries part (rest ++ l2) child hl,
          resolveParts_obj_found entries part rest child hl]
        exact ih child l2
      | none =>
        rw [resolveParts_obj_missing entries part (rest ++ l2) hl,
          resolveParts_obj_missing entries part rest hl]
    case arr elems =>
      cases hp : parse_int part with
      | none =>
        rw [resolveParts_arr_badindex elems part (rest ++ l2) hp,
          resolveParts_arr_badindex elems part rest hp]
      | some idx =>
        cases hi : pyIndex elems idx with
        | some child =>
          rw [resolveParts_arr_found elems part (rest ++ l2) idx child hp hi,
            resolveParts_arr_found elems part rest idx child hp hi]
          exact ih child l2
        | none =>
          rw [resolveParts_arr_oor elems part (rest ++ l2) idx hp hi,
            resolveParts_arr_oor elems part rest idx hp hi]
    all_goals rfl

theorem resolve_update :
    ∀ (parts : List String) (root parent res : JVal) (f : JVal → Except PathErr JVal),
      resolveParts root parts = .ok parent → f parent = .ok res →
      ∃ root', updateAtParts root parts f = .ok root' ∧ resolveParts root' parts = .ok res := by
  intro parts
  induction parts with
  | nil =>
    intro root parent res f hres hf
    have hroot : root = parent := by
      have h2 : Except.ok (ε := PathErr) root = .ok parent := hres
      injection h2
    subst hroot
    exact ⟨res, hf, rfl⟩
  | cons part rest ih =>
    intro root parent res f hres hf
    cases root
    case obj entries =>
      cases hl : lookupKey entries part with
      | none =>
        rw [resolveParts_obj_missing entries part rest hl] at hres
        exact absurd hres (by simp)
      | some child =>
        rw [resolveParts_obj_found entries part rest child hl] at hres
        obtain ⟨child', hup, hres2⟩ := ih child parent res f hres hf
        refine ⟨.obj (objReplace entries part child'), ?_, ?_⟩
        · exact updateAtParts_obj_found entries part rest f child child' hl hup
        · rw [resolveParts_obj_found (objReplace entries part child') part rest child'
            (lookupKey_objReplace entries part child' child hl)]
          exact hres2
    case arr elems =>
      cases hp : parse_int part with
      | none =>
        rw [resolveParts_arr_badindex elems part rest hp] at hres
        exact absurd hres (by simp)
      | some idx =>
        cases hi : pyIndex elems idx with
        | none =>
          rw [resolveParts_arr_oor elems part rest idx hp hi] at hres
          exact absurd hres (by simp)
        | some child =>
          rw [resolveParts_arr_found elems part rest idx child hp hi] at hres
          obtain ⟨child', hup, hres2⟩ := ih child parent res f hres hf
          obtain ⟨elems', hset⟩ := pyIndex_pySet elems idx child hi child'
          refine ⟨.arr elems', ?_, ?_⟩
          · exact updateAtParts_arr_found elems part rest f idx child child' elems' hp hi hup hset
          · rw [resolveParts_arr_found elems' part rest idx child'
              hp (pySet_pyIndex elems idx child' elems' hset)]
            exact hres2
    all_goals simp [resolveParts] at hres

theorem assign_then_resolve (parent : JVal) (key : String) (v p' : JVal)
    (h : assignAt parent key v = .ok p') : resolveParts p' [key] = .ok v := by
  cases parent
  case obj entries =>
    have hp' : p' = .obj (objInsert entries key v) := by
      have h2 : Except.ok (ε := PathErr) (JVal.obj (objInsert entries key v)) = .ok p' := h
      injection h2 with h3
      exact h3.symm
    subst hp'
    rw [resolveParts_obj_found (objInsert entries key v) key [] v (lookupKey_objInsert _ _ _)]
    rfl
  case arr elems =>
    rw [assignAt_arr] at h
    cases hp : parse_int key with
    | none =>
      rw [hp] at h
      exact absurd h (by simp)
    | some idx =>
      rw [hp] at h
      have h2 : (match pySet elems idx v with
          | some elems' => Except.ok (JVal.arr elems')
          | none => Except.error (PathErr.indexOutOfRange idx)) = Except.ok p' := h
      cases hs : pySet elems idx v with
      | none =>
        rw [hs] at h2
        exact absurd h2 (by simp)
      | some elems' =>
        rw [hs] at h2
        have hp' : p' = .arr elems' := by
          injection h2 with h3
          exact h3.symm
        subst hp'
        rw [resolveParts_arr_found elems' key [] idx v
          hp (pySet_pyIndex elems idx v elems' hs)]
        rfl
  all_goals simp [assignAt] at h

theorem dropLast_append_getLastD {α : Type} :
    ∀ (l : List α) (d : α), l ≠ [] → l.dropLast ++ [l.getLastD d] = l := by
  intro l
  induction l with
  | nil => intro d h; exact absurd rfl h
  | cons a t ih =>
    intro d _
    cases t with
    | nil => simp
    | cons b t' =>
      rw [List.dropLast_cons₂, List.getLastD_cons, List.cons_append]
      rw [ih a (by simp)]

mutual

theorem sanitize_json_safe : ∀ v : JVal, json_safe v = true → sanitize_value v = v
  | .null, _ => rfl
  | .bool _, _ => rfl
  | .int _, _ => rfl
  | .num _, _ => rfl
  | .str _, _ => rfl
  | .arr items, h => by
    rw [sanitize_value, sanitize_list_json_safe items (by simpa [json_safe] using h)]
  | .obj entries, h => by
    rw [sanitize_value, sanitize_entries_json_safe entries (by simpa [json_safe] using h)]
  | .other tag, h => by simp [json_safe] at h

theorem sanitize_list_json_safe : ∀ l : List JVal, json_safe_list l = true → sanitize_list l = l
  | [], _ => rfl
  | v :: t, h => by
    have h' : json_safe v = true ∧ json_safe_list t = true := by
      simpa [json_safe_list, Bool.and_eq_true] using h
    rw [sanitize_list, sanitize_json_safe v h'.1, sanitize_list_json_safe t h'.2]

theorem sanitize_entries_json_safe :
    ∀ l : List (String × JVal), json_safe_entries l = true → sanitize_entries l = l
  | [], _ => rfl
  | (k, v) :: t, h => by
    have h' : json_safe v = true ∧ json_safe_entries t = true := by
      simpa [json_safe_entries, Bool.and_eq_true] using h
    rw [sanitize_entries, sanitize_json_safe v h'.1, sanitize_entries_json_safe t h'.2]

end

/-! ### Set-then-get round trip (C9) -/

/-- C9 counterexample: the path `a/b` has a parent (`a`) that resolves to
an existing list container, so it is "valid" in the claim's sense; yet
`set_data` aborts (the final segment is not an integer), no updated state
exists, and `get_data` on the same path fails as well — so set-then-get
cannot return `sanitize(v)`. -/
theorem set_get_invalid_segment_counterexample :
    resolveParts (JVal.obj [("a", JVal.arr [JVal.int 10])]) ["a"] =
      .ok (JVal.arr [JVal.int 10]) ∧
    set_data (JVal.obj [("a", JVal.arr [JVal.int 10])]) "a/b" "/" (JVal.int 99) =
      .error (.badIndex "b") ∧
    get_data (JVal.obj [("a", JVal.arr [JVal.int 10])]) "a/b" "/" =
      .error (.badIndex "b") :=
  ⟨rfl, rfl, rfl⟩

/-- C9 (amended): for a nonempty path whose parent resolves to a dict or
list container *and* whose final segment is assignable there (always, for
a dict; an in-range integer, for a list — phrased as `assignAt`
succeeding), `set_data` succeeds and `get_data` on the same path returns
`sanitize(v)` without failing; for JSON-safe `v` that value is `v`
itself. -/
theorem set_then_get (root : JVal) (k sep : String) (v : JVal)
    (parts : List String) (hk : k ≠ "")
    (hparts : splitParts k sep = parts) (hne : parts ≠ [])
    (parent : JVal) (hres : resolveParts root parts.dropLast = .ok parent)
    (p' : JVal) (hassign : assignAt parent (parts.getLastD "") v = .ok p')
    (hsafe : json_safe v = true) :
    ∃ root', set_data root k sep v = .ok root' ∧
      get_data root' k sep = .ok (sanitize_value v) ∧ sanitize_value v = v := by
  obtain ⟨part, rest, hpr⟩ := List.exists_cons_of_ne_nil hne
  obtain ⟨root', hup, hres2⟩ := resolve_update parts.dropLast root parent p'
    (fun parent => assignAt parent (parts.getLastD "") v) hres hassign
  refine ⟨root', ?_, ?_, sanitize_json_safe v hsafe⟩
  · unfold set_data
    rw [hparts, hpr]
    show updateAtParts root ((part :: rest).dropLast)
      (fun parent => assignAt parent ((part :: rest).getLastD "") v) = .ok root'
    rw [← hpr]
    exact hup
  · have hfull : resolveParts root' parts = .ok v := by
      have hsplit : parts.dropLast ++ [parts.getLastD ""] = parts :=
        dropLast_append_getLastD parts "" hne
      rw [← hsplit, resolveParts_append, hres2]
      show resolveParts p' [parts.getLastD ""] = .ok v
      exact assign_then_resolve parent (parts.getLastD "") v p' hassign
    unfold get_data
    unfold resolve_path
    rw [if_neg hk, hparts, hfull]

/-- Witness for `set_then_get` on the store `{a: [10, 20, 30]}` and the
path `a/1`. -/
theorem set_then_get_witness :
    ∃ root', set_data (JVal.obj [("a", JVal.arr [JVal.int 10, JVal.int 20, JVal.int 30])])
        "a/1" "/" (JVal.int 99) = .ok root' ∧
      get_data root' "a/1" "/" = .ok (sanitize_value (JVal.int 99)) ∧
      sanitize_value (JVal.int 99) = JVal.int 99 :=
  set_then_get (JVal.obj [("a", JVal.arr [JVal.int 10, JVal.int 20, JVal.int 30])])
    "a/1" "/" (JVal.int 99) ["a", "1"] (by decide) rfl (by decide)
    (JVal.arr [JVal.int 10, JVal.int 20, JVal.int 30]) rfl
    (JVal.arr [JVal.int 10, JVal.int 99, JVal.int 30]) rfl rfl

/-! ### Negative sequence indices (C10) -/

/-- C10: on a sequence node of length `n`, an integer segment `i` with
`−n ≤ i < 0` resolves successfully to the element at position `n + i`
(Python-style negative indexing), and `IndexOutOfRange` is reported
exactly when `i < −n` or `i ≥ n`. -/
theorem negative_index_resolution (l : List JVal) (s : String) (i : Int)
    (hs : parse_int s = some i) :
    (-(l.length : Int) ≤ i → i < 0 →
      ∃ v, resolveParts (JVal.arr l) [s] = .ok v ∧
        l.get? (i + (l.length : Int)).toNat = some v) ∧
    ((i < -(l.length : Int) ∨ (l.length : Int) ≤ i) →
      resolveParts (JVal.arr l) [s] = .error (.indexOutOfRange i)) := by
  constructor
  · intro h1 h2
    have hm : (i + (l.length : Int)).toNat < l.length := by omega
    have hi : pyIndex l i = some (l.get ⟨(i + (l.length : Int)).toNat, hm⟩) := by
      unfold pyIndex
      rw [if_neg (by omega), if_pos (by omega)]
      rw [List.get?_eq_getElem?, List.getElem?_eq_getElem hm]
      rfl
    refine ⟨l.get ⟨(i + (l.length : Int)).toNat, hm⟩, ?_, ?_⟩
    · rw [resolveParts_arr_found l s [] i _ hs hi]
      rfl
    · rw [List.get?_eq_getElem?, List.getElem?_eq_getElem hm]
      rfl
  · intro h
    have hi : pyIndex l i = none := by
      unfold pyIndex
      rcases h with h | h
      · rw [if_neg (by omega), if_neg (by omega)]
      · rw [if_pos (by omega), List.get?_eq_getElem?, List.getElem?_eq_none (by omega)]
    exact resolveParts_arr_oor l s [] i hs hi

/-- Witness for `negative_index_resolution`: on `[10, 20, 30]` the segment
`-1` resolves to the element at position `2`. -/
theorem negative_index_resolution_witness :
    parse_int "-1" = some (-1) ∧
    (∃ v, resolveParts (JVal.arr [JVal.int 10, JVal.int 20, JVal.int 30]) ["-1"] = .ok v ∧
      ([JVal.int 10, JVal.int 20, JVal.int 30] : List JVal).get?
        ((-1) + (([JVal.int 10, JVal.int 20, JVal.int 30] : List JVal).length : Int)).toNat =
        some v) :=
  ⟨rfl, (negative_index_resolution [JVal.int 10, JVal.int 20, JVal.int 30] "-1" (-1) rfl).1
    (by decide) (by decide)⟩

end PSFU
